import Mathlib

/-!
Formal model of the conetto rendering pipeline.

The definitions below are a shallow embedding of `src/src/render.rs` (the
library implementation: `Speak::render`, `Pause::render`, `render_all`,
`save_audio_file`) and of the duplicated clip implementation in
`src/src/main.rs` (which differs from the library only in the silence
amounts used by the `Ascii` and `Phonetic` arms of `Speak::render`).

Modelling conventions:
* `f32` audio samples are modelled as rationals (`ℚ`).  The rendering code
  never performs float arithmetic on samples — it only appends literal
  `0.0` values and samples returned by the TTS collaborator — so no float
  rounding occurs in the modelled code.
* The TTS engine, the low-pass filter and the NATO phonetic converter are
  external collaborators (per the spec they are out of scope), so they are
  taken as function parameters.
* A Rust panic (`unwrap` on `None`) is modelled by `Option`: a render
  returns `none` exactly when the Rust code panics.
-/

set_option maxRecDepth 8192

/-- Audio samples, nominally in `[-1, 1]`, modelled as rationals. -/
abbrev Sample := ℚ

/-- Modelled from the spec: the TTS collaborator `Tts::generate` (the engine
itself lives outside the modelled sources).  Given text and an optional voice
label it returns a sequence of samples; the spec treats it as opaque and
deterministic per (text, voice) pair. -/
abbrev TtsFun := String → Option String → List Sample

/-- Helper for `splitWhitespace`: walk the character list, accumulating the
current word (in reverse); flush the accumulated word at each whitespace
character and at the end of the input.  Empty words are never produced,
matching Rust `split_whitespace` (which is `split(char::is_whitespace)`
followed by a filter dropping empty substrings). -/
def splitWsAux : List Char → List Char → List String
  | [], acc => if acc.isEmpty then [] else [String.mk acc.reverse]
  | c :: cs, acc =>
    if c.isWhitespace then
      if acc.isEmpty then splitWsAux cs []
      else String.mk acc.reverse :: splitWsAux cs []
    else splitWsAux cs (c :: acc)

/-- Rust `str::split_whitespace`: the maximal non-empty runs of
non-whitespace characters, in order.  (Lean's `Char.isWhitespace` covers the
ASCII whitespace characters; the difference with Rust's Unicode table is
irrelevant to the properties proved here.) -/
def splitWhitespace (s : String) : List String :=
  splitWsAux s.data []

/-- Rust `str::as_bytes`: the UTF-8 bytes of the text, as natural numbers
(each is `< 256`). -/
def textBytes (text : String) : List Nat :=
  text.data.flatMap (fun c => (String.utf8EncodeChar c).map (fun b => b.toNat))

/-- Rust `format!("{:0>3}", b)`: left-pad a string with the character `0` to
a minimum width of 3. -/
def padZeros3 (s : String) : String :=
  if s.length < 3 then String.mk (List.replicate (3 - s.length) '0') ++ s
  else s

/-- One byte rendered as its decimal value, zero-padded to 3 digits
(`format!("{:0>3}", b)` in the source). -/
def byteDigits (b : Nat) : String :=
  padZeros3 (Nat.repr b)

/-- Rust `Iterator::reduce(|a, b| a + &b)`: `none` on an empty iterator.
The source immediately calls `.unwrap()` on the result, which panics in the
`none` case. -/
def reduceConcat : List String → Option String
  | [] => none
  | s :: rest => some (rest.foldl (fun a b => a ++ b) s)

/-- The digit string built by the `Ascii` arm of `Speak::render`: every byte
of the text, rendered as 3 decimal digits, all concatenated.  `none` models
the panic of `.reduce(..).unwrap()` on empty text. -/
def asciiDigitString (text : String) : Option String :=
  reduceConcat ((textBytes text).map byteDigits)

/-- Rust `slice::chunks(5)`: consecutive chunks of five elements, the last
chunk possibly shorter; an empty slice yields no chunks. -/
def chunks5 {α : Type} : List α → List (List α)
  | [] => []
  | [a] => [[a]]
  | [a, b] => [[a, b]]
  | [a, b, c] => [[a, b, c]]
  | [a, b, c, d] => [[a, b, c, d]]
  | a :: b :: c :: d :: e :: rest => [a, b, c, d, e] :: chunks5 rest

/-- Rust `Pause::render`: extend the buffer with `24 * duration` zero
samples. -/
def pauseRender (d : Nat) (samples : List Sample) : List Sample :=
  samples ++ List.replicate (24 * d) 0

/-- The `Encoding` enum of the source. -/
inductive Encoding : Type
  | Words
  | Ascii
  | Phonetic

/-- The `VoiceModel` enum of the source (ten opaque voice labels). -/
inductive VoiceModel : Type
  | A | B | C | D | E | F | G | H | I | J

/-- The `Display` impl of `VoiceModel`. -/
def VoiceModel.label : VoiceModel → String
  | .A => "A" | .B => "B" | .C => "C" | .D => "D" | .E => "E"
  | .F => "F" | .G => "G" | .H => "H" | .I => "I" | .J => "J"

/-- The `Speak` clip struct of the source. -/
structure Speak : Type where
  text : String
  voice : Option VoiceModel
  encoding : Option Encoding

/-- Rust `Speak::model`: the voice label handed to the TTS engine, if a voice was
chosen. -/
def Speak.model (sp : Speak) : Option String :=
  sp.voice.map VoiceModel.label

/-- The `Words` arm of `Speak::render`: for each whitespace-separated word,
extend the buffer with the TTS samples for that word.  No silence is
appended. -/
def wordsRender (tts : TtsFun) (model : Option String) (text : String)
    (samples : List Sample) : List Sample :=
  (splitWhitespace text).foldl (fun buf word => buf ++ tts word model) samples

/-- The `Ascii` arm of `Speak::render` in `render.rs`: build the digit
string (panicking on empty text, hence `Option`), chunk its characters in
groups of 5, and for each chunk speak each digit followed by
`Pause(600).render` (14,400 zero samples), then append `Pause(400).render`
(9,600 zero samples) after the chunk. -/
def asciiRender (tts : TtsFun) (model : Option String) (text : String)
    (samples : List Sample) : Option (List Sample) :=
  (asciiDigitString text).map (fun words =>
    (chunks5 words.data).foldl (fun buf chunk =>
      pauseRender 400
        (chunk.foldl (fun buf2 c =>
          pauseRender 600 (buf2 ++ tts c.toString model)) buf)) samples)

/-- The `Phonetic` arm of `Speak::render` in `render.rs`: convert the text
with the phonetic-alphabet collaborator, split on whitespace, and for each
word either append `Pause(600).render` (when the word lower-cases to
`"space"`) or speak the word followed by `Pause(160).render`. -/
def phoneticRender (convert : String → String) (tts : TtsFun)
    (model : Option String) (text : String) (samples : List Sample) :
    List Sample :=
  (splitWhitespace (convert text)).foldl (fun buf word =>
    if word.toLower = "space" then pauseRender 600 buf
    else pauseRender 160 (buf ++ tts word model)) samples

/-- Rust `Speak::render` from `render.rs` (the library implementation), with the
phonetic converter and the TTS engine as collaborator parameters.  `none`
models a panic. -/
def Speak.render (convert : String → String) (tts : TtsFun) (sp : Speak)
    (samples : List Sample) : Option (List Sample) :=
  match sp.encoding with
  | some .Words => some (wordsRender tts sp.model sp.text samples)
  | some .Ascii => asciiRender tts sp.model sp.text samples
  | some .Phonetic => some (phoneticRender convert tts sp.model sp.text samples)
  | none => some (samples ++ tts sp.text sp.model)

/-- A clip of the script: `Speak` or `Pause` (the two `Render` impls). -/
inductive Clip : Type
  | speak (sp : Speak)
  | pause (duration : Nat)

/-- Rust `Render::render` dispatched over the two clip kinds. -/
def Clip.render (convert : String → String) (tts : TtsFun) :
    Clip → List Sample → Option (List Sample)
  | .speak sp, samples => sp.render convert tts samples
  | .pause d, samples => some (pauseRender d samples)

/-- Rust `render_all`: start from an empty buffer and render every clip in script
order, each one appending to the shared buffer. -/
def render_all (convert : String → String) (tts : TtsFun)
    (clips : List Clip) : Option (List Sample) :=
  clips.foldlM (fun samples clip => clip.render convert tts samples) []

/-- The trace of `tts.generate` calls made by the `Words` arm:
(text, voice label) per whitespace-separated word, in order. -/
def wordsTokens (model : Option String) (text : String) :
    List (String × Option String) :=
  (splitWhitespace text).map (fun w => (w, model))

/-- The trace of `tts.generate` calls made by the `Ascii` arm: one call per
digit character, chunked order = digit order (`none` when the arm panics on
empty text). -/
def asciiTokens (model : Option String) (text : String) :
    Option (List (String × Option String)) :=
  (asciiDigitString text).map (fun words =>
    (chunks5 words.data).flatMap (fun chunk =>
      chunk.map (fun c => (c.toString, model))))

/-- The trace of `tts.generate` calls made by the `Phonetic` arm: one call
per word of the converted text that does not lower-case to `"space"`. -/
def phoneticTokens (convert : String → String) (model : Option String)
    (text : String) : List (String × Option String) :=
  (splitWhitespace (convert text)).filterMap (fun w =>
    if w.toLower = "space" then none else some (w, model))

/-- The trace of `tts.generate` calls made by `Speak::render`, per encoding;
the unencoded arm issues a single call with the raw text. -/
def Speak.tokens (convert : String → String) (sp : Speak) :
    Option (List (String × Option String)) :=
  match sp.encoding with
  | some .Words => some (wordsTokens sp.model sp.text)
  | some .Ascii => asciiTokens sp.model sp.text
  | some .Phonetic => some (phoneticTokens convert sp.model sp.text)
  | none => some [(sp.text, sp.model)]

namespace MainBin

/-- The `Ascii` arm of the `Speak::render` duplicated in `main.rs`: same
structure as the library arm, but the silences are raw sample counts —
4,000 zero samples after each digit and 10,000 after each chunk. -/
def asciiRender (tts : TtsFun) (model : Option String) (text : String)
    (samples : List Sample) : Option (List Sample) :=
  (asciiDigitString text).map (fun words =>
    (chunks5 words.data).foldl (fun buf chunk =>
      (chunk.foldl (fun buf2 c =>
        (buf2 ++ tts c.toString model) ++ List.replicate 4000 0) buf)
        ++ List.replicate 10000 0) samples)

/-- The `Phonetic` arm of the `Speak::render` duplicated in `main.rs`:
16,000 zero samples for a `"space"` word, otherwise the spoken word followed
by 4,000 zero samples. -/
def phoneticRender (convert : String → String) (tts : TtsFun)
    (model : Option String) (text : String) (samples : List Sample) :
    List Sample :=
  (splitWhitespace (convert text)).foldl (fun buf word =>
    if word.toLower = "space" then buf ++ List.replicate 16000 0
    else (buf ++ tts word model) ++ List.replicate 4000 0) samples

end MainBin

/-- Rust `Iterator::step_by(n)` (with `n ≥ 1`) on a list: keep the first
element, then every `n`-th element after it. -/
def stepBy {α : Type} (n : Nat) : List α → List α
  | [] => []
  | a :: xs => a :: stepBy n (xs.drop (n - 1))
termination_by l => l.length
decreasing_by simp [List.length_drop]; omega

/-- The decimation step of `save_audio_file`:
`iter().skip(factor - 1).step_by(factor)`, keeping the samples at indices
`factor − 1, 2·factor − 1, 3·factor − 1, …`. -/
def decimate {α : Type} (factor : Nat) (l : List α) : List α :=
  stepBy factor (l.drop (factor - 1))

/-- The ratio `spec.sample_rate / output_spec.sample_rate` from `save_audio_file`
(integer division), i.e. `24_000 / 8_000 = 3`. -/
def downsamplingFactor : Nat := 24000 / 8000

/-- Rust truncating cast `as i32` applied to an audio sample: round toward
zero.  (The Rust cast also saturates at the `i32` bounds, which is
irrelevant for the in-range values considered here.) -/
def truncToZero (q : Sample) : ℤ :=
  if 0 ≤ q then ⌊q⌋ else ⌈q⌉

/-- Rust `save_audio_file`, modelled as the sequence of integer samples handed to
the WAV writer: low-pass filter the whole buffer in place (the filter is an
external collaborator, taken as a parameter), skip the first
`downsampling_factor − 1` samples, keep every `downsampling_factor`-th
sample, and cast each retained sample with `as i32`. -/
def save_audio_file (lowpass : List Sample → List Sample)
    (samples : List Sample) : List ℤ :=
  (decimate downsamplingFactor (lowpass samples)).map truncToZero

/-- A concrete TTS collaborator used for concrete evaluations: every request
returns the single sample `1`. -/
def oneSampleTts : TtsFun := fun _ _ => [1]

/-- The contribution of a single clip: what it appends to an empty buffer. -/
def Clip.contrib (convert : String → String) (tts : TtsFun) (c : Clip) :
    Option (List Sample) :=
  c.render convert tts []

/-! Section: Structural lemmas about the rendering folds -/

/-- A fold whose step only ever appends to the buffer is the initial buffer
followed by the concatenation of the per-element contributions. -/
theorem foldl_extend {α β : Type} (step : List β → α → List β)
    (h : α → List β) (hstep : ∀ b a, step b a = b ++ h a) :
    ∀ (l : List α) (s : List β), l.foldl step s = s ++ l.flatMap h := by
  intro l
  induction l with
  | nil => intro s; simp
  | cons a t ih =>
    intro s
    rw [List.foldl_cons, hstep, ih, List.flatMap_cons, List.append_assoc]

/-- The `Words` arm appends exactly the concatenation of the TTS outputs of
the whitespace-separated words, in order, with no silence. -/
theorem wordsRender_flatMap (tts : TtsFun) (model : Option String)
    (text : String) (samples : List Sample) :
    wordsRender tts model text samples =
      samples ++ (splitWhitespace text).flatMap (fun w => tts w model) := by
  unfold wordsRender
  exact foldl_extend _ _ (fun _ _ => rfl) _ _

/-- The `Phonetic` arm of `render.rs` appends, per word of the converted
text, either a 14,400-sample silence (for a word lower-casing to `"space"`)
or the word's TTS output followed by a 3,840-sample silence. -/
theorem phoneticRender_flatMap (convert : String → String) (tts : TtsFun)
    (model : Option String) (text : String) (samples : List Sample) :
    phoneticRender convert tts model text samples =
      samples ++ (splitWhitespace (convert text)).flatMap (fun w =>
        if w.toLower = "space" then List.replicate (24 * 600) (0 : Sample)
        else tts w model ++ List.replicate (24 * 160) 0) := by
  unfold phoneticRender
  refine foldl_extend _ _ (fun b w => ?_) _ _
  by_cases hw : w.toLower = "space"
  · rw [if_pos hw, if_pos hw, pauseRender]
  · rw [if_neg hw, if_neg hw, pauseRender, List.append_assoc]

/-- The `Ascii` arm of `render.rs` appends, per chunk of five digit
characters, the digits' TTS outputs each followed by a 14,400-sample
silence, then a 9,600-sample silence after the chunk. -/
theorem asciiRender_flatMap (tts : TtsFun) (model : Option String)
    (text : String) (samples : List Sample) :
    asciiRender tts model text samples =
      (asciiDigitString text).map (fun ds =>
        samples ++ (chunks5 ds.data).flatMap (fun chunk =>
          chunk.flatMap (fun c =>
            tts c.toString model ++ List.replicate (24 * 600) (0 : Sample))
            ++ List.replicate (24 * 400) 0)) := by
  unfold asciiRender
  refine congrArg (fun f => Option.map f (asciiDigitString text))
    (funext fun ds => ?_)
  have hinner : ∀ (b : List Sample) (ch : List Char),
      ch.foldl (fun buf2 c => pauseRender 600 (buf2 ++ tts c.toString model)) b =
        b ++ ch.flatMap (fun c =>
          tts c.toString model ++ List.replicate (24 * 600) 0) := by
    intro b ch
    refine foldl_extend _ _ (fun b2 c => ?_) _ _
    rw [pauseRender, List.append_assoc]
  refine foldl_extend _ _ (fun b ch => ?_) _ _
  rw [hinner b ch, pauseRender, List.append_assoc]

/-- The `Phonetic` arm of `main.rs` appends, per word of the converted text,
either a 16,000-sample silence (for a word lower-casing to `"space"`) or the
word's TTS output followed by a 4,000-sample silence. -/
theorem mainPhoneticRender_flatMap (convert : String → String) (tts : TtsFun)
    (model : Option String) (text : String) (samples : List Sample) :
    MainBin.phoneticRender convert tts model text samples =
      samples ++ (splitWhitespace (convert text)).flatMap (fun w =>
        if w.toLower = "space" then List.replicate 16000 (0 : Sample)
        else tts w model ++ List.replicate 4000 0) := by
  unfold MainBin.phoneticRender
  refine foldl_extend _ _ (fun b w => ?_) _ _
  by_cases hw : w.toLower = "space"
  · rw [if_pos hw, if_pos hw]
  · rw [if_neg hw, if_neg hw, List.append_assoc]

/-- The `Ascii` arm of `main.rs` appends, per chunk of five digit
characters, the digits' TTS outputs each followed by a 4,000-sample silence,
then a 10,000-sample silence after the chunk. -/
theorem mainAsciiRender_flatMap (tts : TtsFun) (model : Option String)
    (text : String) (samples : List Sample) :
    MainBin.asciiRender tts model text samples =
      (asciiDigitString text).map (fun ds =>
        samples ++ (chunks5 ds.data).flatMap (fun chunk =>
          chunk.flatMap (fun c =>
            tts c.toString model ++ List.replicate 4000 (0 : Sample))
            ++ List.replicate 10000 0)) := by
  unfold MainBin.asciiRender
  refine congrArg (fun f => Option.map f (asciiDigitString text))
    (funext fun ds => ?_)
  have hinner : ∀ (b : List Sample) (ch : List Char),
      ch.foldl (fun buf2 c =>
        (buf2 ++ tts c.toString model) ++ List.replicate 4000 0) b =
        b ++ ch.flatMap (fun c =>
          tts c.toString model ++ List.replicate 4000 0) := by
    intro b ch
    refine foldl_extend _ _ (fun b2 c => ?_) _ _
    rw [List.append_assoc]
  refine foldl_extend _ _ (fun b ch => ?_) _ _
  rw [hinner b ch, List.append_assoc]

/-! Section: Claim C1 -/

/-- Claim C1: the claim states that rendering `Speak { text: "", encoding:
AsciiDigits }` terminates normally, emits zero tokens and leaves the buffer
unchanged.  The code instead reaches `.reduce(..).unwrap()` on an empty byte
iterator and panics (modelled by `none`), in both the library and the binary
implementation — the panic branch is reachable, at exactly this input. -/
theorem c1_empty_ascii_panics :
    (∀ (convert : String → String) (tts : TtsFun) (samples : List Sample),
      Speak.render convert tts (Speak.mk "" none (some Encoding.Ascii)) samples = none)
    ∧ ∀ (tts : TtsFun) (model : Option String) (samples : List Sample),
      MainBin.asciiRender tts model "" samples = none :=
  ⟨fun _ _ _ => rfl, fun _ _ _ => rfl⟩

/-! Section: Claim C6 -/

/-- Claim C6: rendering a `Speak` clip with `Words` encoding and non-empty
text issues exactly one TTS request per whitespace-separated word of the
text, in original order, and appends nothing but the concatenated TTS
outputs (no silence). -/
theorem c6_words_encoding (tts : TtsFun) (model : Option String)
    (text : String) (samples : List Sample) (_htext : text ≠ "") :
    wordsRender tts model text samples =
      samples ++ (splitWhitespace text).flatMap (fun w => tts w model)
    ∧ wordsTokens model text = (splitWhitespace text).map (fun w => (w, model))
    ∧ (wordsTokens model text).length = (splitWhitespace text).length :=
  ⟨wordsRender_flatMap tts model text samples, rfl, by
    unfold wordsTokens; exact List.length_map _ _⟩

/-- Witness for C6 at the concrete text `"hello world"` with a TTS stub
returning one sample per request: two words, two requests, two samples. -/
theorem c6_words_encoding_witness :
    ("hello world" : String) ≠ ""
    ∧ wordsRender oneSampleTts none "hello world" [] = [1, 1]
    ∧ (wordsTokens none "hello world").length =
        (splitWhitespace "hello world").length := by
  refine ⟨by decide, ?_, ?_⟩
  · exact ((c6_words_encoding oneSampleTts none "hello world" [] (by decide)).1).trans
      (by decide)
  · exact (c6_words_encoding oneSampleTts none "hello world" [] (by decide)).2.2

/-! Section: Claim C7 -/

/-- Claim C7: `Pause(d)` appends exactly `d * 24` zero samples to the buffer
and always succeeds, and the script `[Pause(100), Pause(200)]` renders to a
buffer of exactly `300 * 24` zero samples. -/
theorem c7_pause_samples :
    (∀ (d : Nat) (samples : List Sample),
      pauseRender d samples = samples ++ List.replicate (d * 24) (0 : Sample))
    ∧ (∀ (d : Nat) (samples : List Sample),
      (pauseRender d samples).length = samples.length + d * 24)
    ∧ ∀ (convert : String → String) (tts : TtsFun),
      render_all convert tts [Clip.pause 100, Clip.pause 200] =
        some (List.replicate (300 * 24) (0 : Sample)) := by
  refine ⟨fun d samples => by simp [pauseRender, Nat.mul_comm],
    fun d samples => by simp [pauseRender, Nat.mul_comm],
    fun convert tts => ?_⟩
  simp only [render_all, List.foldlM_cons, List.foldlM_nil, Clip.render,
    pauseRender, Option.bind_eq_bind, Option.some_bind, List.nil_append]
  rw [← List.replicate_add]
  rfl

/-! Section: Words produced by whitespace splitting are never empty -/

/-- A word flushed by `splitWsAux` from a non-empty accumulator is a
non-empty string. -/
theorem flushed_ne_empty (acc : List Char) (hacc : ¬ acc.isEmpty) :
    String.mk acc.reverse ≠ "" := by
  intro hcontra
  have hdata : acc.reverse = [] := congrArg String.data hcontra
  have : acc = [] := by simpa using hdata
  rw [this] at hacc
  exact hacc rfl

/-- Every word produced by `splitWsAux` is non-empty. -/
theorem splitWsAux_mem_ne_empty :
    ∀ (l acc : List Char), ∀ w ∈ splitWsAux l acc, w ≠ "" := by
  intro l
  induction l with
  | nil =>
    intro acc w hw
    rw [splitWsAux] at hw
    by_cases hacc : acc.isEmpty
    · rw [if_pos hacc] at hw
      exact absurd hw (List.not_mem_nil w)
    · rw [if_neg hacc] at hw
      rcases List.mem_singleton.mp hw with rfl
      exact flushed_ne_empty acc hacc
  | cons c cs ih =>
    intro acc w hw
    rw [splitWsAux] at hw
    by_cases hc : c.isWhitespace
    · rw [if_pos hc] at hw
      by_cases hacc : acc.isEmpty
      · rw [if_pos hacc] at hw
        exact ih [] w hw
      · rw [if_neg hacc] at hw
        rcases List.mem_cons.mp hw with rfl | hmem
        · exact flushed_ne_empty acc hacc
        · exact ih [] w hmem
    · rw [if_neg hc] at hw
      exact ih (c :: acc) w hw

/-- Every word produced by `splitWhitespace` is non-empty (as in Rust, where
`split_whitespace` filters out empty substrings). -/
theorem splitWhitespace_mem_ne_empty (s : String) :
    ∀ w ∈ splitWhitespace s, w ≠ "" :=
  splitWsAux_mem_ne_empty s.data []

/-- The string of a single character is never empty. -/
theorem char_toString_ne_empty (c : Char) : c.toString ≠ "" := by
  intro hcontra
  have hdata : [c] = ([] : List Char) := congrArg String.data hcontra
  exact absurd hdata (by simp)

/-! Section: Counting helpers -/

/-- A `filterMap` that drops exactly the elements satisfying `p` is a filter
followed by a map. -/
theorem filterMap_ite_none {α β : Type} (p : α → Prop) [DecidablePred p]
    (f : α → β) :
    ∀ l : List α, l.filterMap (fun a => if p a then none else some (f a)) =
      (l.filter (fun a => ¬ p a)).map f := by
  intro l
  induction l with
  | nil => rfl
  | cons a t ih =>
    by_cases hpa : p a
    · simp [List.filterMap_cons, List.filter_cons, hpa, ih]
    · simp [List.filterMap_cons, List.filter_cons, hpa, ih]

/-- The elements failing `p` and those satisfying `p` together account for
the whole list. -/
theorem length_filter_not_add_filter {α : Type} (p : α → Prop)
    [DecidablePred p] :
    ∀ l : List α,
      (l.filter (fun a => ¬ p a)).length + (l.filter (fun a => p a)).length
        = l.length := by
  intro l
  induction l with
  | nil => rfl
  | cons a t ih =>
    by_cases hpa : p a
    · rw [List.filter_cons, List.filter_cons, if_neg (by simp [hpa]),
        if_pos (by simp [hpa]), List.length_cons, List.length_cons]
      omega
    · rw [List.filter_cons, List.filter_cons, if_pos (by simp [hpa]),
        if_neg (by simp [hpa]), List.length_cons, List.length_cons]
      omega

/-! Section: Claim C5 -/

/-- Claim C5: the `Phonetic` encoding splits the converted text on
whitespace; a word lower-casing to `"space"` contributes only a silence (no
TTS request), any other word contributes one TTS request followed by a short
silence; consequently the number of TTS requests plus the number of
space-silences equals the word count of the phonetic expansion. -/
theorem c5_phonetic_encoding (convert : String → String) (tts : TtsFun)
    (model : Option String) (text : String) (samples : List Sample) :
    phoneticRender convert tts model text samples =
      samples ++ (splitWhitespace (convert text)).flatMap (fun w =>
        if w.toLower = "space" then List.replicate (24 * 600) (0 : Sample)
        else tts w model ++ List.replicate (24 * 160) 0)
    ∧ phoneticTokens convert model text =
        ((splitWhitespace (convert text)).filter
          (fun w => ¬ (w.toLower = "space"))).map (fun w => (w, model))
    ∧ (phoneticTokens convert model text).length
        + ((splitWhitespace (convert text)).filter
            (fun w => w.toLower = "space")).length
      = (splitWhitespace (convert text)).length := by
  refine ⟨phoneticRender_flatMap convert tts model text samples, ?_, ?_⟩
  · unfold phoneticTokens
    exact filterMap_ite_none (fun w : String => w.toLower = "space")
      (fun w : String => (w, model)) (splitWhitespace (convert text))
  · unfold phoneticTokens
    rw [filterMap_ite_none (fun w : String => w.toLower = "space")
        (fun w : String => (w, model)) (splitWhitespace (convert text)),
      List.length_map]
    exact length_filter_not_add_filter (fun w : String => w.toLower = "space")
      (splitWhitespace (convert text))

/-! Section: Claim C2 -/

/-- Claim C2 (counterexample): the claim's silence constants (4,000 samples
after each digit token, 10,000 after each group) are violated by the library
implementation in `render.rs`: rendering the text `"0"` (digit string
`"048"`) with a one-sample TTS stub does not produce the claimed buffer —
the actual silences are 14,400 and 9,600 samples. -/
theorem c2_silence_constants_counterexample :
    asciiRender oneSampleTts none "0" [] ≠
      some ([] ++ (chunks5 (("048" : String).data)).flatMap (fun chunk =>
        chunk.flatMap (fun c =>
          oneSampleTts c.toString none ++ List.replicate 4000 (0 : Sample))
          ++ List.replicate 10000 0)) := by
  rw [asciiRender_flatMap,
    show asciiDigitString "0" = some "048" from by decide]
  simp only [Option.map_some']
  intro h
  have h2 := congrArg List.length (Option.some.inj h)
  rw [show chunks5 (("048" : String).data) = [['0', '4', '8']] from by decide]
    at h2
  simp only [List.nil_append, List.flatMap_cons, List.flatMap_nil,
    List.append_nil, List.length_append, List.length_replicate, oneSampleTts,
    List.length_cons, List.length_nil] at h2
  omega

/-- Claim C2 (amended): the claimed constants (4,000 samples after each
digit, 10,000 after each group, 4,000 after each phonetic word, 16,000 for a
space word) hold for the binary implementation in `main.rs`; the library
implementation in `render.rs` instead expresses its pauses in `Pause` ticks
of 24 samples each — 600 ticks (14,400 samples) after each digit, 400 ticks
(9,600 samples) after each group, 160 ticks (3,840 samples) after each
phonetic word and 600 ticks (14,400 samples) for a space word. -/
theorem c2_silence_constants :
    (∀ (tts : TtsFun) (model : Option String) (text : String)
        (samples : List Sample),
      MainBin.asciiRender tts model text samples =
        (asciiDigitString text).map (fun ds =>
          samples ++ (chunks5 ds.data).flatMap (fun chunk =>
            chunk.flatMap (fun c =>
              tts c.toString model ++ List.replicate 4000 (0 : Sample))
              ++ List.replicate 10000 0)))
    ∧ (∀ (convert : String → String) (tts : TtsFun) (model : Option String)
        (text : String) (samples : List Sample),
      MainBin.phoneticRender convert tts model text samples =
        samples ++ (splitWhitespace (convert text)).flatMap (fun w =>
          if w.toLower = "space" then List.replicate 16000 (0 : Sample)
          else tts w model ++ List.replicate 4000 0))
    ∧ (∀ (tts : TtsFun) (model : Option String) (text : String)
        (samples : List Sample),
      asciiRender tts model text samples =
        (asciiDigitString text).map (fun ds =>
          samples ++ (chunks5 ds.data).flatMap (fun chunk =>
            chunk.flatMap (fun c =>
              tts c.toString model ++ List.replicate (24 * 600) (0 : Sample))
              ++ List.replicate (24 * 400) 0)))
    ∧ ∀ (convert : String → String) (tts : TtsFun) (model : Option String)
        (text : String) (samples : List Sample),
      phoneticRender convert tts model text samples =
        samples ++ (splitWhitespace (convert text)).flatMap (fun w =>
          if w.toLower = "space" then List.replicate (24 * 600) (0 : Sample)
          else tts w model ++ List.replicate (24 * 160) 0) :=
  ⟨mainAsciiRender_flatMap, mainPhoneticRender_flatMap,
    asciiRender_flatMap, phoneticRender_flatMap⟩

/-! Section: Claim C8 -/

/-- Claim C8: every clip's render only appends to the buffer (the existing
prefix is preserved verbatim), and `render_all` therefore produces exactly
the in-order concatenation of the individual clip contributions — or fails
altogether when some clip panics. -/
theorem c8_render_all_concatenation (convert : String → String)
    (tts : TtsFun) :
    (∀ (c : Clip) (samples : List Sample),
      c.render convert tts samples =
        (c.contrib convert tts).map (fun l => samples ++ l))
    ∧ ∀ clips : List Clip,
      render_all convert tts clips =
        (clips.mapM (Clip.contrib convert tts)).map List.flatten := by
  have hpre : ∀ (c : Clip) (samples : List Sample),
      c.render convert tts samples =
        (c.contrib convert tts).map (fun l => samples ++ l) := by
    intro c samples
    cases c with
    | pause d =>
      simp only [Clip.render, Clip.contrib, pauseRender, Option.map_some',
        List.nil_append]
    | speak sp =>
      cases sp with
      | mk t v e =>
        cases e with
        | none =>
          simp only [Clip.render, Clip.contrib, Speak.render, Option.map_some',
            List.nil_append]
        | some enc =>
          cases enc with
          | Words =>
            simp only [Clip.render, Clip.contrib, Speak.render,
              wordsRender_flatMap, Option.map_some', List.nil_append]
          | Ascii =>
            simp only [Clip.render, Clip.contrib, Speak.render,
              asciiRender_flatMap]
            cases asciiDigitString t with
            | none => rfl
            | some ds => simp only [Option.map_some', List.nil_append]
          | Phonetic =>
            simp only [Clip.render, Clip.contrib, Speak.render,
              phoneticRender_flatMap, Option.map_some', List.nil_append]
  refine ⟨hpre, fun clips => ?_⟩
  have haux : ∀ (cl : List Clip) (s : List Sample),
      List.foldlM (fun samples clip => Clip.render convert tts clip samples)
          s cl =
        (cl.mapM (Clip.contrib convert tts)).map
          (fun ls => s ++ ls.flatten) := by
    intro cl
    induction cl with
    | nil => intro s; simp [List.mapM, List.mapM.loop]
    | cons c t ih =>
      intro s
      rw [List.foldlM_cons, List.mapM_cons, hpre c s]
      cases hc : Clip.contrib convert tts c with
      | none => simp
      | some k =>
        simp only [Option.map_some', Option.bind_eq_bind, Option.some_bind]
        rw [ih (s ++ k)]
        cases hm : List.mapM (Clip.contrib convert tts) t with
        | none => simp
        | some ls =>
          simp only [Option.map_some', Option.bind_eq_bind, Option.some_bind,
            List.flatten_cons, List.append_assoc, Option.pure_def]
  rw [render_all, haux clips []]
  cases List.mapM (Clip.contrib convert tts) clips <;> simp

/-! Section: Decimation lemmas -/

/-- Length of `stepBy`: one element is kept for every started block of `n`
elements (fuel-indexed induction on the list length). -/
theorem stepBy_length_aux {α : Type} (n : Nat) (hn : 0 < n) :
    ∀ (k : Nat) (l : List α), l.length ≤ k →
      (stepBy n l).length = (l.length + n - 1) / n := by
  intro k
  induction k with
  | zero =>
    intro l hl
    have hnil : l = [] := List.eq_nil_of_length_eq_zero (Nat.le_zero.mp hl)
    subst hnil
    rw [stepBy]
    simp only [List.length_nil]
    rw [Nat.div_eq_of_lt (by omega)]
  | succ k ih =>
    intro l hl
    match l with
    | [] =>
      rw [stepBy]
      simp only [List.length_nil]
      rw [Nat.div_eq_of_lt (by omega)]
    | a :: xs =>
      rw [List.length_cons] at hl
      rw [stepBy]
      simp only [List.length_cons]
      rw [ih (xs.drop (n - 1)) (by rw [List.length_drop]; omega),
        List.length_drop]
      rcases le_or_lt (n - 1) xs.length with hcase | hcase
      · have e1 : xs.length - (n - 1) + n - 1 = xs.length := by omega
        have e2 : xs.length + 1 + n - 1 = xs.length + n := by omega
        rw [e1, e2, Nat.add_div_right _ hn]
      · have e1 : xs.length - (n - 1) + n - 1 = n - 1 := by omega
        have e2 : xs.length + 1 + n - 1 = xs.length + n := by omega
        rw [e1, e2, Nat.add_div_right _ hn,
          Nat.div_eq_of_lt (by omega), Nat.div_eq_of_lt (by omega)]

/-- Indexing `stepBy`: the `i`-th kept element is the input's element at
index `i * n`, for every `i` (both sides are `none` out of range). -/
theorem stepBy_getElem?_aux {α : Type} (n : Nat) (hn : 0 < n) :
    ∀ (k : Nat) (l : List α), l.length ≤ k → ∀ i : Nat,
      (stepBy n l)[i]? = l[i * n]? := by
  intro k
  induction k with
  | zero =>
    intro l hl i
    have hnil : l = [] := List.eq_nil_of_length_eq_zero (Nat.le_zero.mp hl)
    subst hnil
    rw [stepBy]
    simp
  | succ k ih =>
    intro l hl i
    match l with
    | [] =>
      rw [stepBy]
      simp
    | a :: xs =>
      rw [List.length_cons] at hl
      rw [stepBy]
      match i with
      | 0 => simp [Nat.zero_mul]
      | i + 1 =>
        rw [List.getElem?_cons_succ,
          ih (xs.drop (n - 1)) (by rw [List.length_drop]; omega) i,
          List.getElem?_drop]
        have e : (i + 1) * n = (n - 1 + i * n) + 1 := by
          rw [Nat.succ_mul]
          omega
        rw [e, List.getElem?_cons_succ]

/-- The decimation output keeps exactly `⌊length / factor⌋` samples. -/
theorem decimate_length {α : Type} (F : Nat) (hF : 0 < F) (l : List α) :
    (decimate F l).length = l.length / F := by
  unfold decimate
  rw [stepBy_length_aux F hF (l.drop (F - 1)).length _ le_rfl,
    List.length_drop]
  rcases le_or_lt (F - 1) l.length with hcase | hcase
  · have e1 : l.length - (F - 1) + F - 1 = l.length := by omega
    rw [e1]
  · have e1 : l.length - (F - 1) + F - 1 = F - 1 := by omega
    rw [e1, Nat.div_eq_of_lt (by omega), Nat.div_eq_of_lt (by omega)]

/-- The `i`-th decimated sample is the input's element at index
`(i+1) * factor − 1` (both sides `none` out of range). -/
theorem decimate_getElem? {α : Type} (F : Nat) (hF : 0 < F) (l : List α)
    (i : Nat) :
    (decimate F l)[i]? = l[(i + 1) * F - 1]? := by
  unfold decimate
  rw [stepBy_getElem?_aux F hF (l.drop (F - 1)).length _ le_rfl i,
    List.getElem?_drop]
  have e : F - 1 + i * F = (i + 1) * F - 1 := by
    rw [Nat.succ_mul]
    omega
  rw [e]

/-! Section: Claim C3 -/

/-- Claim C3: for a buffer of length `L` and a decimation factor `F` with
`F ∣ L` and `F ≤ L`, the post-processing decimation writes exactly `L / F`
samples, the `i`-th being the (filtered) buffer's element at index
`(i+1)·F − 1` — the kept positions are `F−1, 2F−1, 3F−1, …`. -/
theorem c3_decimation (l : List Sample) (F : Nat) (hF : 0 < F)
    (_hdvd : F ∣ l.length) (_hge : F ≤ l.length) :
    (decimate F l).length = l.length / F
    ∧ (∀ i : Nat, i < l.length / F →
      (decimate F l)[i]? = l[(i + 1) * F - 1]?)
    ∧ ∀ (lowpass : List Sample → List Sample) (s : List Sample),
      (save_audio_file lowpass s).length =
        (lowpass s).length / downsamplingFactor := by
  refine ⟨decimate_length F hF l, fun i _ => decimate_getElem? F hF l i,
    fun lowpass s => ?_⟩
  unfold save_audio_file
  rw [List.length_map, decimate_length downsamplingFactor (by decide)]

/-- Witness for C3 at `l = [0,1,2,3,4,5]` and `F = 3` (the code's factor
`24000 / 8000`): two samples survive, the second being the element at index
5. -/
theorem c3_decimation_witness :
    ((0 : Nat) < 3 ∧ 3 ∣ ([0, 1, 2, 3, 4, 5] : List Sample).length
      ∧ 3 ≤ ([0, 1, 2, 3, 4, 5] : List Sample).length)
    ∧ (decimate 3 ([0, 1, 2, 3, 4, 5] : List Sample)).length = 2
    ∧ (decimate 3 ([0, 1, 2, 3, 4, 5] : List Sample))[1]? = some 5 := by
  have h := c3_decimation ([0, 1, 2, 3, 4, 5] : List Sample) 3 (by decide)
    (by decide) (by decide)
  refine ⟨⟨by decide, by decide, by decide⟩, ?_, ?_⟩
  · rw [h.1]
    decide
  · rw [h.2.1 1 (by decide)]
    decide

/-! Section: Claim C9 -/

/-- Claim C9: the samples handed to the WAV writer are exactly the decimated
filtered samples cast by direct numeric truncation toward zero — no
amplitude scaling by the full-scale 16-bit range and no clamping — so any
filtered sample strictly inside `(-1, 1)` is written as the integer 0. -/
theorem c9_truncating_cast (lowpass : List Sample → List Sample)
    (samples : List Sample) :
    save_audio_file lowpass samples =
      (decimate downsamplingFactor (lowpass samples)).map truncToZero
    ∧ (∀ q : Sample, -1 < q → q < 1 → truncToZero q = 0)
    ∧ ∀ i : Nat, (save_audio_file lowpass samples)[i]? =
        ((lowpass samples)[(i + 1) * downsamplingFactor - 1]?).map
          truncToZero := by
  refine ⟨rfl, fun q h1 h2 => ?_, fun i => ?_⟩
  · unfold truncToZero
    by_cases hq : 0 ≤ q
    · rw [if_pos hq]
      exact Int.floor_eq_zero_iff.mpr (Set.mem_Ico.mpr ⟨hq, h2⟩)
    · rw [if_neg hq]
      exact Int.ceil_eq_zero_iff.mpr (Set.mem_Ioc.mpr ⟨h1, le_of_not_le hq⟩)
  · unfold save_audio_file
    rw [List.getElem?_map,
      decimate_getElem? downsamplingFactor (by decide) (lowpass samples) i]

/-- Witness for C9: with the identity filter and the buffer
`[1/2, 1/2, 1/2]`, the retained sample `1/2` lies strictly inside `(-1, 1)`
and is written as the integer 0. -/
theorem c9_truncating_cast_witness :
    (-1 < (1/2 : Sample) ∧ (1/2 : Sample) < 1)
    ∧ truncToZero (1/2 : Sample) = 0
    ∧ (save_audio_file id [1/2, 1/2, 1/2])[0]? = some 0 := by
  have h := c9_truncating_cast id ([1/2, 1/2, 1/2] : List Sample)
  have hval : truncToZero (1/2 : Sample) = 0 :=
    h.2.1 (1/2) (by norm_num) (by norm_num)
  refine ⟨⟨by norm_num, by norm_num⟩, hval, ?_⟩
  rw [h.2.2 0]
  rw [show (0 + 1) * downsamplingFactor - 1 = 2 from by decide]
  rw [show (id ([1/2, 1/2, 1/2] : List Sample))[2]? = some (1/2 : Sample)
    from rfl]
  rw [Option.map_some', hval]

/-! Section: Claim C4 -/

/-- Claim C4 (code-bug evaluation): at the input `"0"`, the library `Ascii`
arm produces the correct digit stream `"048"` (3 digits for 1 byte), one
token per digit in order; but the silence appended after each digit token is
14,400 samples (`Pause(600)`) while the silence appended after the group is
only 9,600 samples (`Pause(400)`) — the inter-group pause, which the claim
(and the source's own comments) require to be the longer one, is in fact
shorter than the per-digit pause. -/
theorem c4_group_pause_shorter_than_digit_pause :
    asciiDigitString "0" = some "048"
    ∧ asciiTokens none "0" = some [("0", none), ("4", none), ("8", none)]
    ∧ (∀ tts : TtsFun, asciiRender tts none "0" [] =
        some ([['0', '4', '8']].flatMap (fun chunk =>
          chunk.flatMap (fun c =>
            tts c.toString none ++ List.replicate (24 * 600) (0 : Sample))
            ++ List.replicate (24 * 400) 0)))
    ∧ 24 * 400 < 24 * 600 := by
  refine ⟨by decide, by decide, fun tts => ?_, by decide⟩
  rw [asciiRender_flatMap,
    show asciiDigitString "0" = some "048" from by decide]
  simp only [Option.map_some']
  rw [show chunks5 (("048" : String).data) = [['0', '4', '8']] from by decide,
    List.nil_append]

/-! Section: Claim C10 -/

/-- Claim C10 (counterexample): the unencoded arm of `Speak::render` passes
the clip's raw text verbatim to `tts.generate`, so a `Speak` clip with empty
text and no encoding issues a TTS request whose text is the empty string —
contradicting the claim that no unencoded clip ever does. -/
theorem c10_unencoded_empty_request :
    Speak.tokens (fun s => s) (Speak.mk "" none none) = some [("", none)] :=
  rfl

/-- Claim C10 (amended): every encoder path (`Words`, `Ascii`, `Phonetic`)
issues only non-empty texts to `tts.generate`; the unencoded path issues
exactly one request carrying the clip's raw text, which is empty exactly
when the clip's text is empty. -/
theorem c10_encoder_requests_nonempty :
    (∀ (convert : String → String) (sp : Speak)
        (toks : List (String × Option String)),
      sp.encoding ≠ none → sp.tokens convert = some toks →
        ∀ tok ∈ toks, tok.1 ≠ "")
    ∧ ∀ (convert : String → String) (sp : Speak), sp.encoding = none →
        sp.tokens convert = some [(sp.text, sp.model)] := by
  constructor
  · intro convert sp toks henc htoks tok htok
    cases sp with
    | mk t v e =>
      cases e with
      | none => exact absurd rfl henc
      | some enc =>
        cases enc with
        | Words =>
          simp only [Speak.tokens, wordsTokens] at htoks
          injection htoks with htoks
          subst htoks
          rcases List.mem_map.mp htok with ⟨w, hwmem, rfl⟩
          exact splitWhitespace_mem_ne_empty t w hwmem
        | Ascii =>
          simp only [Speak.tokens, asciiTokens] at htoks
          cases hds : asciiDigitString t with
          | none =>
            rw [hds] at htoks
            exact absurd htoks (by simp)
          | some ds =>
            rw [hds] at htoks
            simp only [Option.map_some'] at htoks
            injection htoks with htoks
            subst htoks
            rcases List.mem_flatMap.mp htok with ⟨chunk, hchunk, htokmem⟩
            rcases List.mem_map.mp htokmem with ⟨c, hcmem, rfl⟩
            exact char_toString_ne_empty c
        | Phonetic =>
          simp only [Speak.tokens, phoneticTokens] at htoks
          injection htoks with htoks
          subst htoks
          rcases List.mem_filterMap.mp htok with ⟨w, hwmem, hf⟩
          by_cases hsp : w.toLower = "space"
          · rw [if_pos hsp] at hf
            exact absurd hf (by simp)
          · rw [if_neg hsp] at hf
            injection hf with hf
            rw [← hf]
            exact splitWhitespace_mem_ne_empty (convert t) w hwmem
  · intro convert sp h
    cases sp with
    | mk t v e =>
      cases e with
      | some enc => exact Option.noConfusion h
      | none => rfl

/-- Witness for the amended C10 at the clip
`Speak { text: "hi", encoding: Words }`: the single issued request carries
the non-empty text `"hi"`. -/
theorem c10_encoder_requests_nonempty_witness :
    (Speak.mk "hi" none (some Encoding.Words)).encoding ≠ none
    ∧ Speak.tokens (fun s => s) (Speak.mk "hi" none (some Encoding.Words)) =
        some [("hi", none)]
    ∧ ∀ tok ∈ [(("hi" : String), (none : Option String))], tok.1 ≠ "" := by
  refine ⟨fun h => Option.noConfusion h, by decide, ?_⟩
  exact c10_encoder_requests_nonempty.1 (fun s => s)
    (Speak.mk "hi" none (some Encoding.Words)) [("hi", none)]
    (fun h => Option.noConfusion h) (by decide)
